import Mathlib

/-!
# Verification development for the crawler in `main.go`

A shallow embedding of the pure and control parts of the crawler:

* the Go string primitives the program calls (`strings.Split`, `strings.Fields`,
  `strings.TrimSpace`, `strings.Contains`, `strings.TrimPrefix`, `bytes.EqualFold`),
* `filterURL`, `getVideoLinks`,
* the receive/timeout loop of `processURL` as a step function, alone and together
  with the unbuffered channel `done` that `main` receives from once,
* `DoCDPHeadless` and `DoCDP` run against a render session whose operations
  return a result or a fault.

Go strings are modelled as lists of Unicode code points (`List Char`), that is,
as well-formed UTF-8 text.  All separators and literals used by the program are
ASCII, so splitting, searching and prefix removal agree with Go's byte-level
semantics on such text.
-/

namespace Crawler

/-- Go `string` / `[]byte` holding text. -/
abbrev GoString := List Char

/-! ## Go standard library primitives -/

/-- Attach a character to the first segment of an already split tail. -/
def consHead (c : Char) : List GoString → List GoString
  | [] => [[c]]
  | seg :: rest => (c :: seg) :: rest

/-- Go `strings.Split(s, sep)` for a one-character separator: all segments between
separators, empty ones kept; the empty string gives one empty segment. -/
def Split (sep : Char) : GoString → List GoString
  | [] => [[]]
  | c :: cs => if c = sep then [] :: Split sep cs else consHead c (Split sep cs)

/-- Go `strings.HasPrefix(s, p)`. -/
def HasPrefix (s p : GoString) : Bool := p.isPrefixOf s

/-- Go `strings.TrimPrefix(s, p)`: `s` without the leading `p` when it has it, else `s`. -/
def TrimPrefix (s p : GoString) : GoString :=
  if HasPrefix s p then s.drop p.length else s

/-- Go `strings.Contains(s, sub)`: `sub` occurs in `s` as a contiguous substring. -/
def Contains : GoString → GoString → Bool
  | [], sub => sub.isEmpty
  | c :: cs, sub => HasPrefix (c :: cs) sub || Contains cs sub

/-- Go `unicode.IsSpace`: the Latin-1 spaces and the code points of category Z /
property Pattern_White_Space. -/
def isSpace (c : Char) : Bool :=
  let n := c.toNat
  (9 ≤ n && n ≤ 13) || n == 32 || n == 0x85 || n == 0xA0 || n == 0x1680 ||
  (0x2000 ≤ n && n ≤ 0x200A) || n == 0x2028 || n == 0x2029 || n == 0x202F ||
  n == 0x205F || n == 0x3000

/-- Go `strings.TrimSpace`: leading and trailing white space removed. -/
def TrimSpace (s : GoString) : GoString :=
  ((s.dropWhile isSpace).reverse.dropWhile isSpace).reverse

/-- Scanner behind `strings.Fields`: `cur` is the token being read. -/
def fieldsAux (cur : GoString) : GoString → List GoString
  | [] => if cur = [] then [] else [cur]
  | c :: cs =>
    if isSpace c then
      if cur = [] then fieldsAux [] cs else cur :: fieldsAux [] cs
    else fieldsAux (cur ++ [c]) cs

/-- Go `strings.Fields`: the maximal runs of non-space characters, in order. -/
def Fields (s : GoString) : List GoString := fieldsAux [] s

/-- Lower-case form of an ASCII letter, other characters unchanged. -/
def foldChar (c : Char) : Char :=
  if 65 ≤ c.toNat ∧ c.toNat ≤ 90 then Char.ofNat (c.toNat + 32) else c

/-- Go `bytes.EqualFold` restricted to ASCII case folding.  The program calls it with
the left operand `"0"` only; the digit zero has no case variants in Unicode, so on
that call the result is the one Go computes. -/
def EqualFold (s t : GoString) : Bool := s.map foldChar == t.map foldChar

/-! ## `filterURL` -/

/-- The truncated form built by `filterURL` from the first five segments. -/
def truncated (s0 s1 s2 s3 s4 : GoString) : GoString :=
  s0 ++ "//".toList ++ s1 ++ s2 ++ "/".toList ++ s3 ++ "/".toList ++ s4

/-- The function `filterURL` of `main.go`: `fUrl` starts as the empty string; with more
than five segments it is assigned the truncated form only when segments 3 and 4 are
both non-empty; otherwise (`default`) it is the input. -/
def filterURL (url : GoString) : GoString :=
  let urlArray := Split '/' url
  if urlArray.length > 5 then
    if urlArray.getD 3 [] ≠ [] ∧ urlArray.getD 4 [] ≠ [] then
      truncated (urlArray.getD 0 []) (urlArray.getD 1 []) (urlArray.getD 2 [])
        (urlArray.getD 3 []) (urlArray.getD 4 [])
    else []
  else url

/-! ## `getVideoLinks` -/

/-- Run-time faults of the Go code. -/
inductive Panic where
  | sliceBoundsOutOfRange
  | indexOutOfRange
deriving DecidableEq, Repr

deriving instance DecidableEq for Except

/-- The marker `matchStr` of `getVideoLinks`. -/
def matchStr : GoString := "i.ytimg.com/vi/".toList

/-- The watch-URL prefix `yUrl` of `getVideoLinks`. -/
def yUrl : GoString := "https://www.youtube.com/watch?v=".toList

/-- The prefix removed by `getVideoLinks`.  The Go literal is
`"src=\\\"//i.ytimg.com/vi/"`, which denotes the characters `src=`, a backslash
(code 92), a double quote (code 34) and `//i.ytimg.com/vi/`. -/
def thumbPrefix : GoString :=
  "src=".toList ++ [Char.ofNat 92, Char.ofNat 34] ++ "//i.ytimg.com/vi/".toList

/-- The body of the `for _, v := range tmpStr` loop: `videoLinks` is the accumulator.
`id[0]` faults on an empty slice (`strings.Split` never returns one). -/
def videoLinksLoop (videoLinks : GoString) : List GoString → Except Panic GoString
  | [] => .ok videoLinks
  | v :: rest =>
    if Contains v matchStr then
      let vv := TrimPrefix v thumbPrefix
      match Split '/' vv with
      | [] => .error .indexOutOfRange
      | id0 :: _ =>
        let youtubeLink := yUrl ++ id0
        videoLinksLoop (videoLinks ++ (youtubeLink ++ ",".toList)) rest
    else videoLinksLoop videoLinks rest

/-- The slice expression `videoLinks[:len(videoLinks)-1]`: with length zero the upper
bound is `-1` and Go raises a slice-bounds fault.  A non-empty accumulator always
ends in the one-byte character `,` (see `videoLinksLoop_endsComma`), so removing
the last byte is removing the last character. -/
def sliceDropLast (videoLinks : GoString) : Except Panic GoString :=
  if videoLinks.length = 0 then .error .sliceBoundsOutOfRange
  else .ok (videoLinks.take (videoLinks.length - 1))

/-- The function `getVideoLinks` of `main.go`. -/
def getVideoLinks (buf : GoString) : Except Panic GoString :=
  let tmp := TrimSpace buf
  let tmpStr := Fields tmp
  match videoLinksLoop [] tmpStr with
  | .error p => .error p
  | .ok videoLinks => sliceDropLast videoLinks

/-- The watch URL built for one matching token. -/
def watchURL (t : GoString) : GoString :=
  yUrl ++ (Split '/' (TrimPrefix t thumbPrefix)).headD []

/-- The test `strings.Contains(v, matchStr)` of the loop. -/
def isMatch (t : GoString) : Bool := Contains t matchStr

/-- Every string of the list followed by a comma, concatenated: the value of
`videoLinks` after the loop has appended `youtubeLink + ","` for each of them. -/
def withCommas : List GoString → GoString
  | [] => []
  | x :: xs => x ++ ",".toList ++ withCommas xs

/-- The double-quote character. -/
def dquote : Char := Char.ofNat 34

/-- The backslash character. -/
def backslash : Char := Char.ofNat 92

/-- A thumbnail attribute as it stands in plain markup:
`src="//i.ytimg.com/vi/ID/hq.jpg"`, with bare double quotes. -/
def plainToken (id : GoString) : GoString :=
  "src=".toList ++ [dquote] ++ "//i.ytimg.com/vi/".toList ++ id ++ "/hq.jpg".toList ++ [dquote]

/-- A thumbnail attribute as it stands in JSON-escaped markup:
`src=\"//i.ytimg.com/vi/ID/hq.jpg\"`, every double quote preceded by a backslash. -/
def escapedToken (id : GoString) : GoString :=
  "src=".toList ++ [backslash, dquote] ++ "//i.ytimg.com/vi/".toList ++ id ++
    "/hq.jpg".toList ++ [backslash, dquote]

/-- The tab character. -/
def tab : Char := Char.ofNat 9

/-- The output line `pId + "\t" + pUrl + "\t" + pLinks` of `DoCDPHeadless`/`DoCDP`. -/
def mkRecord (pId pUrl pLinks : GoString) : GoString :=
  pId ++ [tab] ++ pUrl ++ [tab] ++ pLinks

/-! ## The loop of `processURL` -/

/-- The `visited` map of `processURL` (`map[string]bool`) as an association list. -/
abbrev VisitedMap := List (GoString × Bool)

/-- Comma-ok lookup `_, ok := visited[url]`. -/
def mapHas (m : VisitedMap) (k : GoString) : Bool := m.any (fun e => e.1 == k)

/-- Assignment `visited[url] = v`: overwrite the entry of the key or add one. -/
def mapSet (m : VisitedMap) (k : GoString) (v : Bool) : VisitedMap :=
  if mapHas m k then m.map (fun e => if e.1 == k then (k, v) else e) else m ++ [(k, v)]

/-- Builtin `len(visited)`: the number of entries. -/
def mapLen (m : VisitedMap) : Nat := m.length

/-- What the `select` of `processURL` can observe. -/
inductive Event where
  | recv (url : GoString)
  | idle
deriving DecidableEq, Repr

/-- State of the loop together with the record of what it has done so far:
`explored` are the `go exploreURL(url, _)` launches, `extracted` the `DoExtract(url)`
calls, `logged` the counts printed by `log.Printf("Explored %d pages")` and
`doneSends` the number of `done <- true` statements executed. -/
structure LoopState where
  visited : VisitedMap
  explored : List GoString
  extracted : List GoString
  logged : List Nat
  doneSends : Nat
deriving DecidableEq, Repr

/-- The state after `visited := make(map[string]bool)`. -/
def LoopState.init : LoopState := ⟨[], [], [], [], 0⟩

/-- One iteration of the `for { select { ... } }` loop of `processURL`. -/
def processURLStep (s : LoopState) : Event → LoopState
  | .recv url =>
    if mapHas s.visited url then s
    else
      { s with visited := mapSet s.visited url true
               explored := s.explored ++ [url]
               extracted := s.extracted ++ [url] }
  | .idle =>
    { s with logged := s.logged ++ [mapLen s.visited]
             doneSends := s.doneSends + 1 }

/-- The loop of `processURL` run over a finite trace of events. -/
def processURLRun (s : LoopState) (trace : List Event) : LoopState :=
  trace.foldl processURLStep s

/-- The keys of the visited map. -/
def VisitedMap.keys (m : VisitedMap) : List GoString := m.map Prod.fst

/-- What the loop keeps true: the keys of `visited` are pairwise distinct, and the
launches and the extractions are exactly those keys, in order of insertion. -/
def LoopInv (s : LoopState) : Prop :=
  s.visited.keys.Nodup ∧ s.explored = s.visited.keys ∧ s.extracted = s.visited.keys

/-- The loop of `processURL` together with the other end of the channel `done`.
`done` is made by `make(chan bool)` in `main`, so it has no buffer and a send
completes only when a receive takes it.  The one receive of the program is the
statement `<-done` of `main`, executed once; after it `main` returns and the process
ends.  `mainReceived` says that this receive has happened, `signals` counts the
sends on `done` that completed, and `blocked` says that the loop is parked in a
send that no receive will take.  The process ending is the trace ending. -/
structure ProgState where
  loop : LoopState
  mainReceived : Bool
  blocked : Bool
  signals : Nat
deriving DecidableEq, Repr

/-- The state when `go processURL(urlProcessor, done)` starts. -/
def ProgState.init : ProgState := ⟨LoopState.init, false, false, 0⟩

/-- One event of the loop with the channel taken into account.  A parked loop
observes nothing.  On an idle timeout the loop logs the count and executes
`done <- true`: the send completes when `main` has not yet received, and parks the
loop for good otherwise. -/
def programStep (p : ProgState) : Event → ProgState
  | .recv url =>
    if p.blocked then p
    else ⟨processURLStep p.loop (.recv url), p.mainReceived, false, p.signals⟩
  | .idle =>
    if p.blocked then p
    else if p.mainReceived then ⟨processURLStep p.loop .idle, true, true, p.signals⟩
    else ⟨processURLStep p.loop .idle, true, false, p.signals + 1⟩

/-- The program run over a finite trace of events. -/
def programRun (p : ProgState) (trace : List Event) : ProgState :=
  trace.foldl programStep p

/-- What the program keeps true: the loop invariant, no completed send and no parked
loop before `main` has received, exactly one completed send after. -/
def ProgInv (p : ProgState) : Prop :=
  LoopInv p.loop ∧
  (p.mainReceived = false → p.signals = 0 ∧ p.blocked = false) ∧
  (p.mainReceived = true → p.signals = 1)

/-! ## `DoCDPHeadless` and `DoCDP` against a render session -/

/-- A Go `error` value, identified with the text `fmt.Sprint(err)` prints. -/
abbrev Fault := GoString

/-- The values `getProductInfo` evaluates into `buf`, `pId` and `pUrl`. -/
structure ProductInfo where
  buf : GoString
  pId : GoString
  pUrl : GoString
deriving DecidableEq, Repr

/-- The render session as a collaborator: what each operation the extraction can
call answers.  `none` is a `nil` error. -/
structure Renderer where
  /-- The error of `cdp.New`. -/
  new : Option Fault
  /-- The call `c.Run(ctxt, isPresent(url, &buf1))`: the fault, or the captured `buf1`. -/
  runIsPresent : GoString → Except Fault GoString
  /-- The call `c.Shutdown(ctxt)`. -/
  shutdown : Option Fault
  /-- The call `c.Wait()`. -/
  wait : Option Fault
  /-- The call `c.Run(ctxt, getProductInfo(url, ...))`. -/
  runGetProductInfo : GoString → Except Fault ProductInfo

/-- The observable operations of one extraction, in program order. -/
inductive Action where
  | cdpNew
  | runIsPresent (url : GoString)
  | logNoWidget (url : GoString)
  | shutdown
  | wait
  | runGetProductInfo (url : GoString)
  | writeToFile (record : GoString)
deriving DecidableEq, Repr

/-- How an extraction ends: it returns to `DoExtract`, `check` ends the process
through `log.Fatalln(err, str)`, or a run-time fault is raised. -/
inductive Outcome where
  | returned
  | fatal (err : Fault) (str : GoString)
  | panicked (p : Panic)
deriving DecidableEq, Repr

/-- The operations performed by an extraction and the way it ended. -/
structure Exec where
  actions : List Action
  outcome : Outcome
deriving DecidableEq, Repr

/-- The text `"Uncaught"` looked for in `fmt.Sprint(err)`. -/
def uncaughtText : GoString := "Uncaught".toList

/-- Perform one operation, then continue. -/
def Exec.act (a : Action) (k : Exec) : Exec := ⟨a :: k.actions, k.outcome⟩

/-- The function `check` of `main.go`: a non-nil error ends the process, otherwise
the program continues with `k`. -/
def check (err : Option Fault) (str : GoString) (k : Exec) : Exec :=
  match err with
  | some e => ⟨[], .fatal e str⟩
  | none => k

/-- The statement `return`. -/
def Exec.ret : Exec := ⟨[], .returned⟩

/-- The tail of both extraction functions once `buf` is known:
`pLinks := getVideoLinks(buf)`, build the record, `WriteToFile(record)`. -/
def emitRecord (info : ProductInfo) : Exec :=
  match getVideoLinks info.buf with
  | .error p => ⟨[], .panicked p⟩
  | .ok pLinks => Exec.act (.writeToFile (mkRecord info.pId info.pUrl pLinks)) Exec.ret

/-- The lines handed to `WriteToFile` by an extraction, in order. -/
def Exec.written (e : Exec) : List GoString :=
  e.actions.filterMap (fun a => match a with
    | .writeToFile record => some record
    | _ => none)

/-- The function `DoCDPHeadless` of `main.go`. -/
def DoCDPHeadless (r : Renderer) (url : GoString) : Exec :=
  Exec.act .cdpNew <|
  check r.new "\nError in creating new cdp instance".toList <|
  Exec.act (.runIsPresent url) <|
  match r.runIsPresent url with
  | .error err =>
    if Contains err uncaughtText then Exec.ret
    else check (some err) "Error in Run method of cdp".toList Exec.ret
  | .ok buf1 =>
    if buf1.length = 0 || EqualFold "0".toList buf1 then
      Exec.act (.logNoWidget url) <|
      Exec.act .shutdown <|
      check r.shutdown "Error in shutting down chrome".toList <|
      Exec.ret
    else
      Exec.act (.runGetProductInfo url) <|
      match r.runGetProductInfo url with
      | .error err => check (some err) "Error in Run method of cdp".toList Exec.ret
      | .ok info =>
        Exec.act .shutdown <|
        check r.shutdown "Error in shutting down chrome".toList <|
        emitRecord info

/-- The function `DoCDP` of `main.go`: as `DoCDPHeadless`, with `c.Wait()` checked
after every `c.Shutdown`. -/
def DoCDP (r : Renderer) (url : GoString) : Exec :=
  Exec.act .cdpNew <|
  check r.new "\nError in creating new cdp instance".toList <|
  Exec.act (.runIsPresent url) <|
  match r.runIsPresent url with
  | .error err =>
    if Contains err uncaughtText then Exec.ret
    else check (some err) "Error in Run method of cdp".toList Exec.ret
  | .ok buf1 =>
    if buf1.length = 0 || EqualFold "0".toList buf1 then
      Exec.act (.logNoWidget url) <|
      Exec.act .shutdown <|
      check r.shutdown "Error in shutting down chrome".toList <|
      Exec.act .wait <|
      check r.wait "Error in wait to shutdown chrome".toList <|
      Exec.ret
    else
      Exec.act (.runGetProductInfo url) <|
      match r.runGetProductInfo url with
      | .error err => check (some err) "Error in Run method of cdp".toList Exec.ret
      | .ok info =>
        Exec.act .shutdown <|
        check r.shutdown "Error in shutting down chrome".toList <|
        Exec.act .wait <|
        check r.wait "Error in wait to shutdown chrome".toList <|
        emitRecord info

/-! ## Lemmas on `Split` -/

theorem Split_ne_nil (sep : Char) (s : GoString) : Split sep s ≠ [] := by
  cases s with
  | nil => simp [Split]
  | cons c cs =>
    simp only [Split]
    split
    · simp
    · cases h : Split sep cs <;> simp [consHead]

theorem Split_eq_self_of_not_mem (sep : Char) (s : GoString) (h : sep ∉ s) :
    Split sep s = [s] := by
  induction s with
  | nil => rfl
  | cons c cs ih =>
    have hc : c ≠ sep := fun e => h (by simp [e])
    have hcs : sep ∉ cs := fun e => h (by simp [e])
    simp [Split, hc, ih hcs, consHead]

theorem Split_append_sep (sep : Char) (a b : GoString) (h : sep ∉ a) :
    Split sep (a ++ sep :: b) = a :: Split sep b := by
  induction a with
  | nil => simp [Split]
  | cons c cs ih =>
    have hc : c ≠ sep := fun e => h (by simp [e])
    have hcs : sep ∉ cs := fun e => h (by simp [e])
    simp [Split, hc, ih hcs, consHead]

theorem mem_of_mem_Split (sep : Char) (s seg : GoString) (c : Char)
    (hseg : seg ∈ Split sep s) (hc : c ∈ seg) : c ∈ s := by
  induction s generalizing seg with
  | nil => simp [Split] at hseg; subst hseg; simp at hc
  | cons d ds ih =>
    simp only [Split] at hseg
    split at hseg
    · rcases List.mem_cons.1 hseg with h | h
      · subst h; simp at hc
      · exact List.mem_cons_of_mem _ (ih seg h hc)
    · cases hsp : Split sep ds with
      | nil => exact absurd hsp (Split_ne_nil sep ds)
      | cons x xs =>
        rw [hsp] at hseg ih
        simp only [consHead] at hseg
        rcases List.mem_cons.1 hseg with h | h
        · subst h
          rcases List.mem_cons.1 hc with h2 | h2
          · simp [h2]
          · exact List.mem_cons_of_mem _ (ih x (by simp) h2)
        · exact List.mem_cons_of_mem _ (ih seg (List.mem_cons_of_mem _ h) hc)

/-! ## `filterURL` -/

theorem truncated_ne_nil (s0 s1 s2 s3 s4 : GoString) : truncated s0 s1 s2 s3 s4 ≠ [] := by
  intro h
  have := congrArg List.length h
  simp [truncated] at this

theorem Split_length_nil (sep : Char) : (Split sep []).length = 1 := rfl

/-- C2, as stated, fails on the code.  The input `a/b/c/d/e` splits into exactly five
segments, yet `filterURL` returns it unchanged, which is not the truncated form
`a//bc/d/e`; and `https://host//a/b/c` splits into seven segments, yet `filterURL`
returns the empty string, not the truncated form. -/
theorem filterURL_five_or_more_counterexample :
    (5 ≤ (Split '/' "a/b/c/d/e".toList).length ∧
      filterURL "a/b/c/d/e".toList = "a/b/c/d/e".toList ∧
      filterURL "a/b/c/d/e".toList ≠
        truncated ((Split '/' "a/b/c/d/e".toList).getD 0 [])
          ((Split '/' "a/b/c/d/e".toList).getD 1 [])
          ((Split '/' "a/b/c/d/e".toList).getD 2 [])
          ((Split '/' "a/b/c/d/e".toList).getD 3 [])
          ((Split '/' "a/b/c/d/e".toList).getD 4 [])) ∧
    (5 ≤ (Split '/' "https://host//a/b/c".toList).length ∧
      filterURL "https://host//a/b/c".toList = [] ∧
      filterURL "https://host//a/b/c".toList ≠
        truncated ((Split '/' "https://host//a/b/c".toList).getD 0 [])
          ((Split '/' "https://host//a/b/c".toList).getD 1 [])
          ((Split '/' "https://host//a/b/c".toList).getD 2 [])
          ((Split '/' "https://host//a/b/c".toList).getD 3 [])
          ((Split '/' "https://host//a/b/c".toList).getD 4 [])) := by
  decide

/-- C2, amended.  With `s` the split of `u` on `/`: when `s` has more than five
segments and `s[3]`, `s[4]` are both non-empty, `filterURL u` is
`s[0] + "//" + s[1] + s[2] + "/" + s[3] + "/" + s[4]`; when `s` has more than five
segments and `s[3]` or `s[4]` is empty, `filterURL u` is the empty string; when `s`
has five segments or fewer, `filterURL u = u`. -/
theorem filterURL_cases (u : GoString) :
    (5 < (Split '/' u).length → (Split '/' u).getD 3 [] ≠ [] →
        (Split '/' u).getD 4 [] ≠ [] →
      filterURL u =
        truncated ((Split '/' u).getD 0 []) ((Split '/' u).getD 1 [])
          ((Split '/' u).getD 2 []) ((Split '/' u).getD 3 []) ((Split '/' u).getD 4 [])) ∧
    (5 < (Split '/' u).length →
        ((Split '/' u).getD 3 [] = [] ∨ (Split '/' u).getD 4 [] = []) →
      filterURL u = []) ∧
    ((Split '/' u).length ≤ 5 → filterURL u = u) := by
  refine ⟨fun h5 h3 h4 => ?_, fun h5 h34 => ?_, fun h5 => ?_⟩
  · simp only [filterURL, gt_iff_lt, h5, if_true, h3, h4, ne_eq, not_false_eq_true, and_self]
  · have : ¬ ((Split '/' u).getD 3 [] ≠ [] ∧ (Split '/' u).getD 4 [] ≠ []) := by
      rintro ⟨h3, h4⟩
      rcases h34 with h | h
      · exact h3 h
      · exact h4 h
    simp only [filterURL, gt_iff_lt, h5, if_true, this, if_false]
  · have : ¬ (5 < (Split '/' u).length) := by omega
    simp only [filterURL, gt_iff_lt, this, if_false]

/-- The three cases of `filterURL_cases` at concrete URLs: six segments give the
truncated form, an empty fourth segment gives the empty string, five segments pass
through. -/
theorem filterURL_cases_witness :
    filterURL "https://host/a/b/c".toList = "https://host/a/b".toList ∧
    filterURL "https://host//a/b/c".toList = [] ∧
    filterURL "https://host/a/b".toList = "https://host/a/b".toList :=
  ⟨((filterURL_cases "https://host/a/b/c".toList).1 (by decide) (by decide)
      (by decide)).trans (by decide),
   (filterURL_cases "https://host//a/b/c".toList).2.1 (by decide) (by decide),
   (filterURL_cases "https://host/a/b".toList).2.2 (by decide)⟩

/-- C10.  When the split of `u` on `/` has more than five segments and the segment at
index 3 or 4 is empty, `filterURL u` is the empty string, which is neither `u` nor
the truncated form built from the first five segments; in every other case
`filterURL u` is non-empty whenever `u` is non-empty. -/
theorem filterURL_empty_segment (u : GoString) :
    ((5 < (Split '/' u).length ∧
        ((Split '/' u).getD 3 [] = [] ∨ (Split '/' u).getD 4 [] = [])) →
      filterURL u = [] ∧ filterURL u ≠ u ∧
      filterURL u ≠
        truncated ((Split '/' u).getD 0 []) ((Split '/' u).getD 1 [])
          ((Split '/' u).getD 2 []) ((Split '/' u).getD 3 []) ((Split '/' u).getD 4 [])) ∧
    (¬ (5 < (Split '/' u).length ∧
        ((Split '/' u).getD 3 [] = [] ∨ (Split '/' u).getD 4 [] = [])) →
      u ≠ [] → filterURL u ≠ []) := by
  constructor
  · rintro ⟨h5, h34⟩
    have hnot : ¬ ((Split '/' u).getD 3 [] ≠ [] ∧ (Split '/' u).getD 4 [] ≠ []) := by
      rintro ⟨h3, h4⟩
      rcases h34 with h | h
      · exact h3 h
      · exact h4 h
    have he : filterURL u = [] := by
      simp only [filterURL, gt_iff_lt, h5, if_true, hnot, if_false]
    refine ⟨he, ?_, ?_⟩
    · rw [he]
      intro hu
      rw [← hu, Split_length_nil] at h5
      omega
    · rw [he]
      exact fun h => truncated_ne_nil _ _ _ _ _ h.symm
  · intro hc hu
    by_cases h5 : 5 < (Split '/' u).length
    · have h34 : (Split '/' u).getD 3 [] ≠ [] ∧ (Split '/' u).getD 4 [] ≠ [] := by
        constructor
        · exact fun h => hc ⟨h5, Or.inl h⟩
        · exact fun h => hc ⟨h5, Or.inr h⟩
      simp only [filterURL, gt_iff_lt, h5, if_true, h34.1, h34.2, ne_eq, not_false_eq_true,
        and_self]
      exact truncated_ne_nil _ _ _ _ _
    · simp only [filterURL, gt_iff_lt, h5, if_false]
      exact hu

/-- Both halves of `filterURL_empty_segment` at concrete URLs: `https://host//a/b/c`
has an empty segment at index 3 and is mapped to the empty string; `https://host/a/b/c`
has none and is mapped to a non-empty string. -/
theorem filterURL_empty_segment_witness :
    (filterURL "https://host//a/b/c".toList = [] ∧
      filterURL "https://host//a/b/c".toList ≠ "https://host//a/b/c".toList ∧
      filterURL "https://host//a/b/c".toList ≠
        truncated ((Split '/' "https://host//a/b/c".toList).getD 0 [])
          ((Split '/' "https://host//a/b/c".toList).getD 1 [])
          ((Split '/' "https://host//a/b/c".toList).getD 2 [])
          ((Split '/' "https://host//a/b/c".toList).getD 3 [])
          ((Split '/' "https://host//a/b/c".toList).getD 4 [])) ∧
    filterURL "https://host/a/b/c".toList ≠ [] :=
  ⟨(filterURL_empty_segment "https://host//a/b/c".toList).1 (by decide),
   (filterURL_empty_segment "https://host/a/b/c".toList).2 (by decide) (by decide)⟩

/-! ## The loop of `processURL` -/

theorem mapHas_iff (m : VisitedMap) (k : GoString) : mapHas m k = true ↔ k ∈ m.keys := by
  simp only [mapHas, VisitedMap.keys, List.any_eq_true, beq_iff_eq, List.mem_map]

theorem keys_mapSet_new (m : VisitedMap) (k : GoString) (v : Bool) (h : ¬ mapHas m k = true) :
    (mapSet m k v).keys = m.keys ++ [k] := by
  simp [mapSet, h, VisitedMap.keys]

theorem LoopInv_init : LoopInv LoopState.init := by
  simp [LoopInv, LoopState.init, VisitedMap.keys]

theorem LoopInv_step (s : LoopState) (e : Event) (h : LoopInv s) :
    LoopInv (processURLStep s e) := by
  obtain ⟨hnd, hex, hxt⟩ := h
  cases e with
  | idle => exact ⟨hnd, hex, hxt⟩
  | recv url =>
    simp only [processURLStep]
    split
    · exact ⟨hnd, hex, hxt⟩
    · rename_i hhas
      have hnot : url ∉ s.visited.keys := fun hm => hhas ((mapHas_iff _ _).2 hm)
      refine ⟨?_, ?_, ?_⟩
      · show (mapSet s.visited url true).keys.Nodup
        rw [keys_mapSet_new _ _ _ hhas]
        exact List.Nodup.append hnd (List.nodup_singleton url) (by simpa using hnot)
      · show s.explored ++ [url] = (mapSet s.visited url true).keys
        rw [keys_mapSet_new _ _ _ hhas, hex]
      · show s.extracted ++ [url] = (mapSet s.visited url true).keys
        rw [keys_mapSet_new _ _ _ hhas, hxt]

theorem LoopInv_run (trace : List Event) (s : LoopState) (h : LoopInv s) :
    LoopInv (processURLRun s trace) := by
  induction trace generalizing s with
  | nil => exact h
  | cons e es ih => exact ih _ (LoopInv_step s e h)

theorem keys_step_mono (s : LoopState) (e : Event) (u : GoString)
    (h : u ∈ s.visited.keys) : u ∈ (processURLStep s e).visited.keys := by
  cases e with
  | idle => exact h
  | recv url =>
    simp only [processURLStep]
    split
    · exact h
    · rename_i hhas
      show u ∈ (mapSet s.visited url true).keys
      rw [keys_mapSet_new _ _ _ hhas]
      exact List.mem_append_left _ h

theorem keys_step_recv (s : LoopState) (u : GoString) :
    u ∈ (processURLStep s (.recv u)).visited.keys := by
  simp only [processURLStep]
  split
  · rename_i hhas
    exact (mapHas_iff _ _).1 hhas
  · rename_i hhas
    show u ∈ (mapSet s.visited u true).keys
    rw [keys_mapSet_new _ _ _ hhas]
    simp

theorem keys_run (trace : List Event) (s : LoopState) (u : GoString)
    (h : u ∈ s.visited.keys ∨ Event.recv u ∈ trace) :
    u ∈ (processURLRun s trace).visited.keys := by
  induction trace generalizing s with
  | nil =>
    rcases h with h | h
    · exact h
    · simp at h
  | cons e es ih =>
    apply ih
    rcases h with h | h
    · exact Or.inl (keys_step_mono s e u h)
    · rcases List.mem_cons.1 h with h | h
      · subst h
        exact Or.inl (keys_step_recv s u)
      · exact Or.inr h

theorem count_eq_one_of_nodup {α : Type} [BEq α] [LawfulBEq α] (l : List α) (a : α)
    (hnd : l.Nodup) (hm : a ∈ l) : l.count a = 1 := by
  induction l with
  | nil => simp at hm
  | cons x xs ih =>
    rw [List.nodup_cons] at hnd
    rcases List.mem_cons.1 hm with h | h
    · subst h
      have h0 : xs.count a = 0 := List.count_eq_zero.2 hnd.1
      simp [h0]
    · have hne : x ≠ a := fun e => hnd.1 (e ▸ h)
      have hb : (x == a) = false := by simpa using hne
      rw [List.count_cons, ih hnd.2 h, hb]
      rfl

/-- C3.  Run the receive branch of `processURL` from the empty visited map over any
finite sequence of received URLs.  A URL `u` occurring `k ≥ 1` times in the sequence
has been passed to `DoExtract` exactly once and to `go exploreURL` at most once. -/
theorem processURL_dedup (urls : List GoString) (u : GoString) (k : Nat)
    (hk : urls.count u = k) (hpos : 1 ≤ k) :
    (processURLRun LoopState.init (urls.map Event.recv)).extracted.count u = 1 ∧
    (processURLRun LoopState.init (urls.map Event.recv)).explored.count u ≤ 1 := by
  have hmem : u ∈ urls := List.count_pos_iff.1 (by omega)
  have hinv := LoopInv_run (urls.map Event.recv) LoopState.init LoopInv_init
  have hkey : u ∈ (processURLRun LoopState.init (urls.map Event.recv)).visited.keys :=
    keys_run _ _ u (Or.inr (List.mem_map.2 ⟨u, hmem, rfl⟩))
  obtain ⟨hnd, hex, hxt⟩ := hinv
  have hone := count_eq_one_of_nodup _ u hnd hkey
  rw [hex, hxt]
  exact ⟨hone, le_of_eq hone⟩

/-- The URL `/a` received three times, with `/b` in between, is extracted once and
explored at most once. -/
theorem processURL_dedup_witness :
    (processURLRun LoopState.init
      (["/a".toList, "/b".toList, "/a".toList, "/a".toList].map Event.recv)).extracted.count
        "/a".toList = 1 ∧
    (processURLRun LoopState.init
      (["/a".toList, "/b".toList, "/a".toList, "/a".toList].map Event.recv)).explored.count
        "/a".toList ≤ 1 :=
  processURL_dedup ["/a".toList, "/b".toList, "/a".toList, "/a".toList] "/a".toList 3
    (by decide) (by decide)

theorem ProgInv_init : ProgInv ProgState.init :=
  ⟨LoopInv_init, fun _ => ⟨rfl, rfl⟩, fun h => by simp [ProgState.init] at h⟩

theorem ProgInv_step (p : ProgState) (e : Event) (h : ProgInv p) :
    ProgInv (programStep p e) := by
  obtain ⟨hl, h0, h1⟩ := h
  cases e with
  | recv url =>
    simp only [programStep]
    split
    · exact ⟨hl, h0, h1⟩
    · refine ⟨LoopInv_step _ _ hl, fun hm => ⟨(h0 hm).1, rfl⟩, h1⟩
  | idle =>
    simp only [programStep]
    split
    · exact ⟨hl, h0, h1⟩
    · split
      · rename_i hm
        exact ⟨LoopInv_step _ _ hl, fun hf => by simp at hf, fun _ => h1 hm⟩
      · rename_i hm
        have hz := (h0 (by simpa using hm)).1
        refine ⟨LoopInv_step _ _ hl, fun hf => by simp at hf, fun _ => ?_⟩
        show p.signals + 1 = 1
        rw [hz]

theorem ProgInv_run (trace : List Event) (p : ProgState) (h : ProgInv p) :
    ProgInv (programRun p trace) := by
  induction trace generalizing p with
  | nil => exact h
  | cons e es ih => exact ih _ (ProgInv_step p e h)

theorem mainReceived_step (p : ProgState) (e : Event) (h : p.mainReceived = true) :
    (programStep p e).mainReceived = true := by
  cases e with
  | recv url =>
    simp only [programStep]
    split <;> exact h
  | idle =>
    simp only [programStep]
    split
    · exact h
    · rfl

theorem mainReceived_idle (p : ProgState) (h : ProgInv p) :
    (programStep p Event.idle).mainReceived = true := by
  simp only [programStep]
  split
  · rename_i hb
    cases hm : p.mainReceived with
    | true => rfl
    | false =>
      have := (h.2.1 hm).2
      rw [this] at hb
      exact absurd hb (by simp)
  · split <;> rfl

theorem mainReceived_run (trace : List Event) (p : ProgState) (hinv : ProgInv p)
    (h : p.mainReceived = true ∨ Event.idle ∈ trace) :
    (programRun p trace).mainReceived = true := by
  induction trace generalizing p with
  | nil =>
    rcases h with h | h
    · exact h
    · simp at h
  | cons e es ih =>
    apply ih _ (ProgInv_step p e hinv)
    rcases h with h | h
    · exact Or.inl (mainReceived_step p e h)
    · rcases List.mem_cons.1 h with h | h
      · subst h
        exact Or.inl (mainReceived_idle p hinv)
      · exact Or.inr h

/-- C8.  Run the loop of `processURL` from the empty visited map over any event
trace, the channel `done` being received from once by `main`.  In every state
reached in which the loop is running, an idle-timeout step logs exactly the number
of distinct keys of the visited map at that moment.  Along the trace the completion
signal on `done` is emitted at most once, and exactly once as soon as the trace
holds an idle timeout, however many idle windows elapse after it. -/
theorem processURL_signal_once (trace : List Event) :
    ((programRun ProgState.init trace).blocked = false →
      (programStep (programRun ProgState.init trace) Event.idle).loop.logged =
        (programRun ProgState.init trace).loop.logged ++
          [(programRun ProgState.init trace).loop.visited.keys.toFinset.card]) ∧
    (programRun ProgState.init trace).signals ≤ 1 ∧
    (Event.idle ∈ trace → (programRun ProgState.init trace).signals = 1) := by
  have hinv := ProgInv_run trace ProgState.init ProgInv_init
  refine ⟨fun hb => ?_, ?_, fun hi => ?_⟩
  · have hlog : (programStep (programRun ProgState.init trace) Event.idle).loop.logged =
        (programRun ProgState.init trace).loop.logged ++
          [mapLen (programRun ProgState.init trace).loop.visited] := by
      simp only [programStep, hb]
      cases (programRun ProgState.init trace).mainReceived <;> rfl
    rw [hlog, List.toFinset_card_of_nodup hinv.1.1]
    simp [mapLen, VisitedMap.keys]
  · cases hm : (programRun ProgState.init trace).mainReceived with
    | false => rw [(hinv.2.1 hm).1]; exact Nat.zero_le 1
    | true => rw [hinv.2.2 hm]
  · exact hinv.2.2 (mainReceived_run trace ProgState.init ProgInv_init (Or.inr hi))

/-- Two URLs and three idle windows: the first idle window logs one page and emits
the signal, the later ones emit nothing more. -/
theorem processURL_signal_once_witness :
    (programRun ProgState.init
      [Event.recv "/a".toList, Event.idle, Event.recv "/b".toList, Event.idle,
        Event.idle]).signals = 1 ∧
    (programStep (programRun ProgState.init [Event.recv "/a".toList, Event.recv "/a".toList,
      Event.recv "/b".toList]) Event.idle).loop.logged = [2] :=
  ⟨(processURL_signal_once
      [Event.recv "/a".toList, Event.idle, Event.recv "/b".toList, Event.idle,
        Event.idle]).2.2 (by decide),
   ((processURL_signal_once [Event.recv "/a".toList, Event.recv "/a".toList,
      Event.recv "/b".toList]).1 (by decide)).trans (by decide)⟩

/-! ## `getVideoLinks` -/

theorem videoLinksLoop_eq (toks : List GoString) (acc : GoString) :
    videoLinksLoop acc toks =
      .ok (acc ++ withCommas ((toks.filter isMatch).map watchURL)) := by
  induction toks generalizing acc with
  | nil => simp [videoLinksLoop, withCommas]
  | cons v rest ih =>
    by_cases hv : Contains v matchStr = true
    · cases hsp : Split '/' (TrimPrefix v thumbPrefix) with
      | nil => exact absurd hsp (Split_ne_nil _ _)
      | cons id0 tl =>
        have hw : watchURL v = yUrl ++ id0 := by simp [watchURL, hsp]
        simp only [videoLinksLoop, hv, if_true, hsp, ih]
        simp [List.filter, isMatch, hv, withCommas, hw, List.append_assoc]
    · simp only [videoLinksLoop, hv, if_false, ih]
      simp [List.filter, isMatch, hv]

theorem fieldsAux_append_space (s cur : GoString) (c : Char) (hc : isSpace c = true) :
    fieldsAux cur (s ++ [c]) = fieldsAux cur s := by
  induction s generalizing cur with
  | nil => simp [fieldsAux, hc]
  | cons d ds ih => simp [fieldsAux, ih]

theorem fieldsAux_trimRight (s cur : GoString) :
    fieldsAux cur ((s.reverse.dropWhile isSpace).reverse) = fieldsAux cur s := by
  induction s using List.reverseRecOn with
  | nil => simp
  | append_singleton t c ih =>
    by_cases hc : isSpace c = true
    · simp [List.dropWhile, hc, ih, fieldsAux_append_space]
    · simp [List.dropWhile, hc]

theorem Fields_trimLeft (s : GoString) : Fields (s.dropWhile isSpace) = Fields s := by
  induction s with
  | nil => rfl
  | cons c cs ih =>
    by_cases hc : isSpace c = true
    · simp [List.dropWhile, hc, Fields, fieldsAux] at ih ⊢
      exact ih
    · simp [List.dropWhile, hc]

theorem Fields_TrimSpace (s : GoString) : Fields (TrimSpace s) = Fields s := by
  unfold TrimSpace Fields
  rw [fieldsAux_trimRight]
  exact Fields_trimLeft s

theorem getVideoLinks_eq (buf : GoString) :
    getVideoLinks buf =
      sliceDropLast (withCommas (((Fields buf).filter isMatch).map watchURL)) := by
  simp [getVideoLinks, videoLinksLoop_eq, Fields_TrimSpace]

theorem withCommas_eq_intercalate (l : List GoString) (h : l ≠ []) :
    withCommas l = List.intercalate ",".toList l ++ ",".toList := by
  induction l with
  | nil => exact absurd rfl h
  | cons x xs ih =>
    cases xs with
    | nil => simp [withCommas, List.intercalate, List.intersperse]
    | cons y ys =>
      have := ih (by simp)
      simp only [withCommas] at this ⊢
      rw [this]
      simp [List.intercalate, List.intersperse, List.append_assoc]

theorem sliceDropLast_withCommas (l : List GoString) (h : l ≠ []) :
    sliceDropLast (withCommas l) = .ok (List.intercalate ",".toList l) := by
  rw [withCommas_eq_intercalate l h]
  simp [sliceDropLast]

/-- A non-empty value of `videoLinks` ends in a comma, so the last byte that the
slice expression removes is that comma. -/
theorem videoLinksLoop_endsComma (l : List GoString) (h : l ≠ []) :
    (withCommas l).getLast? = some ',' := by
  rw [withCommas_eq_intercalate l h]
  simp

/-- C1 (what the code does).  For every buffer in which no white-space-delimited
token contains `i.ytimg.com/vi/`, `videoLinks` is still empty after the loop and the
slice `videoLinks[:len(videoLinks)-1]` is out of range: `getVideoLinks` faults
instead of returning the empty string. -/
theorem getVideoLinks_no_match_faults (buf : GoString)
    (h : ∀ t ∈ Fields buf, Contains t matchStr = false) :
    getVideoLinks buf = .error .sliceBoundsOutOfRange := by
  have hf : (Fields buf).filter isMatch = [] := by
    rw [List.filter_eq_nil_iff]
    intro t ht
    simp [isMatch, h t ht]
  rw [getVideoLinks_eq, hf]
  rfl

/-- The empty buffer, a buffer of white space only and a buffer of tokens without the
marker all make `getVideoLinks` fault. -/
theorem getVideoLinks_no_match_faults_witness :
    getVideoLinks [] = .error .sliceBoundsOutOfRange ∧
    getVideoLinks " \n ".toList = .error .sliceBoundsOutOfRange ∧
    getVideoLinks "<body> <p>none</p> </body>".toList = .error .sliceBoundsOutOfRange :=
  ⟨getVideoLinks_no_match_faults [] (by decide),
   getVideoLinks_no_match_faults " \n ".toList (by decide),
   getVideoLinks_no_match_faults "<body> <p>none</p> </body>".toList (by decide)⟩

/-- C5.  For every buffer with at least one white-space-delimited token containing
`i.ytimg.com/vi/`, `getVideoLinks` returns the watch URLs of the marker-containing
tokens, in input order with duplicates kept, joined by single commas with no
trailing comma; the watch URL of a token is the watch prefix followed by the first
`/`-segment of the token without the prefix that `getVideoLinks` strips. -/
theorem getVideoLinks_joined (buf : GoString)
    (h : ∃ t ∈ Fields buf, Contains t matchStr = true) :
    getVideoLinks buf =
      .ok (List.intercalate ",".toList
        (((Fields buf).filter (fun t => Contains t matchStr)).map
          (fun t => yUrl ++ (Split '/' (TrimPrefix t thumbPrefix)).headD []))) := by
  obtain ⟨t, ht, hm⟩ := h
  have hne : ((Fields buf).filter isMatch).map watchURL ≠ [] := by
    intro he
    have hmem : t ∈ (Fields buf).filter isMatch := List.mem_filter.2 ⟨ht, hm⟩
    rw [List.map_eq_nil_iff] at he
    rw [he] at hmem
    simp at hmem
  rw [getVideoLinks_eq, sliceDropLast_withCommas _ hne]
  rfl

/-- Three matching tokens, the first one twice, among tokens without the marker: the
result lists the three watch URLs in input order, the duplicate kept. -/
theorem getVideoLinks_joined_witness :
    getVideoLinks ("<b> ".toList ++ thumbPrefix ++ "k1/a.jpg x ".toList ++ thumbPrefix ++
        "k1/a.jpg ".toList ++ thumbPrefix ++ "k2/b.jpg </b>".toList) =
      .ok ("https://www.youtube.com/watch?v=k1,https://www.youtube.com/watch?v=k1,".toList ++
        "https://www.youtube.com/watch?v=k2".toList) :=
  (getVideoLinks_joined _ (by decide)).trans (by decide)

theorem TrimPrefix_append (p x : GoString) : TrimPrefix (p ++ x) p = x := by
  have hp : HasPrefix (p ++ x) p = true := by
    simp [HasPrefix]
  simp [TrimPrefix, hp]

theorem watchURL_escaped (id rest : GoString) (h : '/' ∉ id) :
    watchURL (thumbPrefix ++ (id ++ ('/' :: rest))) = yUrl ++ id := by
  simp [watchURL, TrimPrefix_append, Split_append_sep '/' id rest h]

/-- C4, as stated, fails on the code when the tokens are the strings the spec's
literals denote, `src="//i.ytimg.com/vi/abc123/hq.jpg"` and
`src="//i.ytimg.com/vi/xyz789/hq.jpg"` with bare double quotes: they are the only
marker-containing tokens of the buffer, the stripped prefix (which has a backslash
before the quote) does not match them, and the identifier taken is `src="`. -/
theorem getVideoLinks_plain_tokens_counterexample :
    (Fields ("x ".toList ++ plainToken "abc123".toList ++ " y ".toList ++
        plainToken "xyz789".toList)).filter (fun t => Contains t matchStr) =
      [plainToken "abc123".toList, plainToken "xyz789".toList] ∧
    getVideoLinks ("x ".toList ++ plainToken "abc123".toList ++ " y ".toList ++
        plainToken "xyz789".toList) =
      .ok ("https://www.youtube.com/watch?v=src=".toList ++ [dquote] ++
        ",https://www.youtube.com/watch?v=src=".toList ++ [dquote]) ∧
    getVideoLinks ("x ".toList ++ plainToken "abc123".toList ++ " y ".toList ++
        plainToken "xyz789".toList) ≠
      .ok ("https://www.youtube.com/watch?v=abc123,".toList ++
        "https://www.youtube.com/watch?v=xyz789".toList) := by
  decide

/-- C4, amended.  When the only marker-containing tokens of the buffer are, in this
order, two tokens that begin with the exact prefix `getVideoLinks` strips (`src=`,
a backslash, a double quote, `//i.ytimg.com/vi/`), continue with an identifier free
of `/` and then with `/` and anything, the result is the two watch URLs for the two
identifiers joined by one comma. -/
theorem getVideoLinks_two_tokens (buf id1 id2 rest1 rest2 : GoString)
    (h1 : '/' ∉ id1) (h2 : '/' ∉ id2)
    (hf : (Fields buf).filter (fun t => Contains t matchStr) =
      [thumbPrefix ++ (id1 ++ ('/' :: rest1)), thumbPrefix ++ (id2 ++ ('/' :: rest2))]) :
    getVideoLinks buf = .ok (yUrl ++ id1 ++ ",".toList ++ (yUrl ++ id2)) := by
  have hf2 : (Fields buf).filter isMatch =
      [thumbPrefix ++ (id1 ++ ('/' :: rest1)), thumbPrefix ++ (id2 ++ ('/' :: rest2))] := hf
  rw [getVideoLinks_eq, hf2]
  simp only [List.map, watchURL_escaped _ _ h1, watchURL_escaped _ _ h2]
  rw [sliceDropLast_withCommas _ (by simp)]
  simp [List.intercalate, List.intersperse, List.append_assoc]

/-- The spec's two identifiers in JSON-escaped tokens, between other tokens: the
result is the two watch URLs joined by one comma. -/
theorem getVideoLinks_two_tokens_witness :
    getVideoLinks ("<img ".toList ++ escapedToken "abc123".toList ++ " alt=x> <img ".toList ++
        escapedToken "xyz789".toList ++ " >".toList) =
      .ok ("https://www.youtube.com/watch?v=abc123,".toList ++
        "https://www.youtube.com/watch?v=xyz789".toList) :=
  (getVideoLinks_two_tokens
    ("<img ".toList ++ escapedToken "abc123".toList ++ " alt=x> <img ".toList ++
      escapedToken "xyz789".toList ++ " >".toList)
    "abc123".toList "xyz789".toList ("hq.jpg".toList ++ [backslash, dquote])
    ("hq.jpg".toList ++ [backslash, dquote]) (by decide) (by decide) (by decide)).trans
    (by decide)

/-! ## The output line -/

theorem fieldsAux_no_space (s cur t : GoString) (hcur : ∀ c ∈ cur, isSpace c = false)
    (ht : t ∈ fieldsAux cur s) : ∀ c ∈ t, isSpace c = false := by
  induction s generalizing cur with
  | nil =>
    simp only [fieldsAux] at ht
    split at ht
    · simp at ht
    · simp at ht
      subst ht
      exact hcur
  | cons d ds ih =>
    simp only [fieldsAux] at ht
    by_cases hd : isSpace d = true
    · simp only [hd, if_true] at ht
      split at ht
      · exact ih [] (by simp) ht
      · rcases List.mem_cons.1 ht with h | h
        · subst h
          exact hcur
        · exact ih [] (by simp) h
    · simp only [hd] at ht
      refine ih (cur ++ [d]) ?_ ht
      intro c hc
      rcases List.mem_append.1 hc with h | h
      · exact hcur c h
      · simp at h
        subst h
        simpa using hd

theorem Fields_no_tab (s t : GoString) (ht : t ∈ Fields s) : tab ∉ t := by
  intro hmem
  have := fieldsAux_no_space s [] t (by simp) ht tab hmem
  exact absurd this (by decide)

theorem TrimPrefix_subset (s p : GoString) (c : Char) (h : c ∈ TrimPrefix s p) : c ∈ s := by
  unfold TrimPrefix at h
  split at h
  · exact List.mem_of_mem_drop h
  · exact h

theorem watchURL_no_tab (t : GoString) (ht : tab ∉ t) : tab ∉ watchURL t := by
  intro hmem
  unfold watchURL at hmem
  rcases List.mem_append.1 hmem with h | h
  · exact absurd h (by decide)
  · cases hsp : Split '/' (TrimPrefix t thumbPrefix) with
    | nil => exact absurd hsp (Split_ne_nil _ _)
    | cons x xs =>
      rw [hsp] at h
      simp only [List.headD_cons] at h
      have h1 : tab ∈ TrimPrefix t thumbPrefix :=
        mem_of_mem_Split '/' _ x tab (by rw [hsp]; simp) h
      exact ht (TrimPrefix_subset _ _ _ h1)

theorem withCommas_no_tab (l : List GoString) (h : ∀ x ∈ l, tab ∉ x) :
    tab ∉ withCommas l := by
  induction l with
  | nil => simp [withCommas]
  | cons x xs ih =>
    intro hmem
    simp only [withCommas] at hmem
    rcases List.mem_append.1 hmem with h1 | h1
    · rcases List.mem_append.1 h1 with h2 | h2
      · exact h x (by simp) h2
      · exact absurd h2 (by decide)
    · exact ih (fun y hy => h y (List.mem_cons_of_mem _ hy)) h1

theorem getVideoLinks_no_tab (buf pLinks : GoString) (h : getVideoLinks buf = .ok pLinks) :
    tab ∉ pLinks := by
  rw [getVideoLinks_eq] at h
  unfold sliceDropLast at h
  split at h
  · cases h
  · injection h with h
    subst h
    intro hmem
    refine withCommas_no_tab _ ?_ (List.mem_of_mem_take hmem)
    intro x hx
    obtain ⟨t, ht, rfl⟩ := List.mem_map.1 hx
    exact watchURL_no_tab t (Fields_no_tab buf t (List.mem_filter.1 ht).1)

/-! ## `DoCDPHeadless` and `DoCDP` -/

theorem negative_test (buf1 : GoString) (h : buf1 = [] ∨ buf1 = "0".toList) :
    (decide (buf1.length = 0) || EqualFold "0".toList buf1) = true := by
  rcases h with h | h <;> subst h <;> decide

theorem negative_test_false (buf1 : GoString)
    (h : (decide (buf1.length = 0) || EqualFold "0".toList buf1) = false) :
    buf1 ≠ [] ∧ buf1 ≠ "0".toList := by
  constructor
  · intro e
    subst e
    simp at h
  · intro e
    subst e
    revert h
    decide

theorem DoCDPHeadless_negative (r : Renderer) (url buf1 : GoString) (hnew : r.new = none)
    (hrun : r.runIsPresent url = .ok buf1) (hbuf : buf1 = [] ∨ buf1 = "0".toList) :
    DoCDPHeadless r url =
      Exec.act .cdpNew (Exec.act (.runIsPresent url) (Exec.act (.logNoWidget url)
        (Exec.act .shutdown
          (check r.shutdown "Error in shutting down chrome".toList Exec.ret)))) := by
  have ht := negative_test buf1 hbuf
  simp only [DoCDPHeadless, hnew, hrun, check, ht, if_true]

theorem DoCDP_negative (r : Renderer) (url buf1 : GoString) (hnew : r.new = none)
    (hrun : r.runIsPresent url = .ok buf1) (hbuf : buf1 = [] ∨ buf1 = "0".toList) :
    DoCDP r url =
      Exec.act .cdpNew (Exec.act (.runIsPresent url) (Exec.act (.logNoWidget url)
        (Exec.act .shutdown
          (check r.shutdown "Error in shutting down chrome".toList
            (Exec.act .wait
              (check r.wait "Error in wait to shutdown chrome".toList Exec.ret)))))) := by
  have ht := negative_test buf1 hbuf
  simp only [DoCDP, hnew, hrun, check, ht, if_true]

theorem DoCDPHeadless_write (r : Renderer) (url rec : GoString)
    (h : Action.writeToFile rec ∈ (DoCDPHeadless r url).actions) :
    ∃ buf1, r.runIsPresent url = .ok buf1 ∧ buf1 ≠ [] ∧ buf1 ≠ "0".toList := by
  unfold DoCDPHeadless at h
  cases hn : r.new with
  | some e => simp [hn, check, Exec.act] at h
  | none =>
    cases hr : r.runIsPresent url with
    | error err =>
      by_cases hu : Contains err uncaughtText = true <;>
        simp [hn, hr, hu, check, Exec.act, Exec.ret] at h
    | ok buf1 =>
      by_cases ht : (decide (buf1.length = 0) || EqualFold "0".toList buf1) = true
      · cases hs : r.shutdown <;>
          simp only [hn, hr, ht, hs, check, Exec.act, Exec.ret, if_true] at h <;>
          simp at h
      · exact ⟨buf1, rfl, negative_test_false buf1 (by simpa using ht)⟩

theorem DoCDP_write (r : Renderer) (url rec : GoString)
    (h : Action.writeToFile rec ∈ (DoCDP r url).actions) :
    ∃ buf1, r.runIsPresent url = .ok buf1 ∧ buf1 ≠ [] ∧ buf1 ≠ "0".toList := by
  unfold DoCDP at h
  cases hn : r.new with
  | some e => simp [hn, check, Exec.act] at h
  | none =>
    cases hr : r.runIsPresent url with
    | error err =>
      by_cases hu : Contains err uncaughtText = true <;>
        simp [hn, hr, hu, check, Exec.act, Exec.ret] at h
    | ok buf1 =>
      by_cases ht : (decide (buf1.length = 0) || EqualFold "0".toList buf1) = true
      · cases hs : r.shutdown <;> cases hw : r.wait <;>
          simp only [hn, hr, ht, hs, hw, check, Exec.act, Exec.ret, if_true] at h <;>
          simp at h
      · exact ⟨buf1, rfl, negative_test_false buf1 (by simpa using ht)⟩

/-- C6, as stated, fails on the code: the presence check returns an empty capture
without fault, `c.Shutdown` then returns a fault, and `check` ends the process with
`log.Fatalln`; in `DoCDP` a fault of `c.Wait` does the same. -/
theorem presence_negative_counterexample :
    DoCDPHeadless ⟨none, fun _ => .ok [], some "context canceled".toList, none,
        fun _ => .error []⟩ "/p".toList =
      ⟨[.cdpNew, .runIsPresent "/p".toList, .logNoWidget "/p".toList, .shutdown],
        .fatal "context canceled".toList "Error in shutting down chrome".toList⟩ ∧
    DoCDP ⟨none, fun _ => .ok "0".toList, none, some "exit status 1".toList,
        fun _ => .error []⟩ "/p".toList =
      ⟨[.cdpNew, .runIsPresent "/p".toList, .logNoWidget "/p".toList, .shutdown, .wait],
        .fatal "exit status 1".toList "Error in wait to shutdown chrome".toList⟩ := by
  decide

/-- C6, amended.  In both `DoCDPHeadless` and `DoCDP`, whenever the session was
created and the presence check returns without fault a capture that is empty or is
`"0"`: Phase 2 is not run and `WriteToFile` is not called; the extraction returns
when the teardown (`Shutdown`, and in `DoCDP` also `Wait`) returns without fault,
and `check` ends the process when the teardown returns a fault.  And `WriteToFile`
is called only when the presence check returned a capture that is neither empty
nor `"0"`. -/
theorem presence_negative_path (r : Renderer) (url : GoString) :
    (∀ buf1, r.new = none → r.runIsPresent url = .ok buf1 →
        (buf1 = [] ∨ buf1 = "0".toList) →
      (∀ e ∈ [DoCDPHeadless r url, DoCDP r url],
        Action.runGetProductInfo url ∉ e.actions ∧
        ∀ rec, Action.writeToFile rec ∉ e.actions) ∧
      (r.shutdown = none → (DoCDPHeadless r url).outcome = .returned) ∧
      (r.shutdown = none → r.wait = none → (DoCDP r url).outcome = .returned) ∧
      (∀ err, r.shutdown = some err →
        (DoCDPHeadless r url).outcome = .fatal err "Error in shutting down chrome".toList ∧
        (DoCDP r url).outcome = .fatal err "Error in shutting down chrome".toList) ∧
      (∀ err, r.shutdown = none → r.wait = some err →
        (DoCDP r url).outcome = .fatal err "Error in wait to shutdown chrome".toList)) ∧
    (∀ rec, (Action.writeToFile rec ∈ (DoCDPHeadless r url).actions ∨
        Action.writeToFile rec ∈ (DoCDP r url).actions) →
      ∃ buf1, r.runIsPresent url = .ok buf1 ∧ buf1 ≠ [] ∧ buf1 ≠ "0".toList) := by
  constructor
  · intro buf1 hnew hrun hbuf
    have h1 := DoCDPHeadless_negative r url buf1 hnew hrun hbuf
    have h2 := DoCDP_negative r url buf1 hnew hrun hbuf
    refine ⟨?_, ?_, ?_, ?_, ?_⟩
    · intro e he
      simp only [List.mem_cons, List.mem_singleton, List.not_mem_nil, or_false] at he
      rcases he with he | he <;> subst he
      · rw [h1]
        cases hs : r.shutdown <;> simp [check, Exec.act, Exec.ret]
      · rw [h2]
        cases hs : r.shutdown <;> cases hw : r.wait <;> simp [check, Exec.act, Exec.ret]
    · intro hs
      rw [h1, hs]
      rfl
    · intro hs hw
      rw [h2, hs, hw]
      rfl
    · intro err hs
      rw [h1, h2, hs]
      exact ⟨rfl, rfl⟩
    · intro err hs hw
      rw [h2, hs, hw]
      rfl
  · intro rec h
    rcases h with h | h
    · exact DoCDPHeadless_write r url rec h
    · exact DoCDP_write r url rec h

/-- A session whose presence check captures `"0"` and whose teardown succeeds: both
functions return, with neither Phase 2 nor `WriteToFile` among their operations. -/
theorem presence_negative_path_witness :
    (∀ e ∈ [DoCDPHeadless ⟨none, fun _ => .ok "0".toList, none, none,
          fun _ => .ok ⟨[], [], []⟩⟩ "/p".toList,
        DoCDP ⟨none, fun _ => .ok "0".toList, none, none,
          fun _ => .ok ⟨[], [], []⟩⟩ "/p".toList],
      Action.runGetProductInfo "/p".toList ∉ e.actions ∧
      ∀ rec, Action.writeToFile rec ∉ e.actions) ∧
    (DoCDPHeadless ⟨none, fun _ => .ok "0".toList, none, none,
      fun _ => .ok ⟨[], [], []⟩⟩ "/p".toList).outcome = .returned ∧
    (DoCDP ⟨none, fun _ => .ok "0".toList, none, none,
      fun _ => .ok ⟨[], [], []⟩⟩ "/p".toList).outcome = .returned :=
  have h := (presence_negative_path ⟨none, fun _ => .ok "0".toList, none, none,
    fun _ => .ok ⟨[], [], []⟩⟩ "/p".toList).1 "0".toList rfl rfl (Or.inr rfl)
  ⟨h.1, h.2.1 rfl, h.2.2.1 rfl rfl⟩

/-- C7 (what the code does).  When the presence check returns a fault whose text
contains `Uncaught`, both functions return at once: the operations performed are
the creation of the session and the presence check only, `c.Shutdown` is not
called, nothing is written and the process goes on.  When it returns any other
fault, `check` ends the process and nothing is written. -/
theorem presence_fault (r : Renderer) (url : GoString) (err : Fault)
    (hnew : r.new = none) (hrun : r.runIsPresent url = .error err) :
    (Contains err uncaughtText = true →
      DoCDPHeadless r url = ⟨[.cdpNew, .runIsPresent url], .returned⟩ ∧
      DoCDP r url = ⟨[.cdpNew, .runIsPresent url], .returned⟩ ∧
      Action.shutdown ∉ (DoCDPHeadless r url).actions ∧
      Action.shutdown ∉ (DoCDP r url).actions) ∧
    (Contains err uncaughtText = false →
      DoCDPHeadless r url =
        ⟨[.cdpNew, .runIsPresent url], .fatal err "Error in Run method of cdp".toList⟩ ∧
      DoCDP r url =
        ⟨[.cdpNew, .runIsPresent url], .fatal err "Error in Run method of cdp".toList⟩) := by
  constructor
  · intro hu
    have h1 : DoCDPHeadless r url = ⟨[.cdpNew, .runIsPresent url], .returned⟩ := by
      simp [DoCDPHeadless, hnew, hrun, hu, check, Exec.act, Exec.ret]
    have h2 : DoCDP r url = ⟨[.cdpNew, .runIsPresent url], .returned⟩ := by
      simp [DoCDP, hnew, hrun, hu, check, Exec.act, Exec.ret]
    refine ⟨h1, h2, ?_, ?_⟩
    · rw [h1]; simp
    · rw [h2]; simp
  · intro hu
    constructor
    · simp [DoCDPHeadless, hnew, hrun, hu, check, Exec.act, Exec.ret]
    · simp [DoCDP, hnew, hrun, hu, check, Exec.act, Exec.ret]

/-- The fault text of an absent element: both functions return after the presence
check and `c.Shutdown` is not among the operations. -/
theorem presence_fault_witness :
    DoCDPHeadless ⟨none, fun _ => .error "exception Uncaught TypeError".toList, none, none,
        fun _ => .error []⟩ "/p".toList =
      ⟨[.cdpNew, .runIsPresent "/p".toList], .returned⟩ ∧
    Action.shutdown ∉ (DoCDPHeadless ⟨none,
      fun _ => .error "exception Uncaught TypeError".toList, none, none,
      fun _ => .error []⟩ "/p".toList).actions ∧
    Action.shutdown ∉ (DoCDP ⟨none,
      fun _ => .error "exception Uncaught TypeError".toList, none, none,
      fun _ => .error []⟩ "/p".toList).actions :=
  have h := (presence_fault ⟨none, fun _ => .error "exception Uncaught TypeError".toList,
    none, none, fun _ => .error []⟩ "/p".toList "exception Uncaught TypeError".toList
    rfl rfl).1 (by decide)
  ⟨h.1, h.2.2.1, h.2.2.2⟩

theorem foldChar_eq_zero (c : Char) (h : foldChar c = '0') : c = '0' := by
  unfold foldChar at h
  split at h
  · rename_i hc
    exfalso
    obtain ⟨n, hn⟩ : ∃ n, c.toNat = n := ⟨_, rfl⟩
    rw [hn] at h hc
    obtain ⟨h1, h2⟩ := hc
    interval_cases n <;> exact absurd h (by decide)
  · exact h

theorem EqualFold_zero (buf1 : GoString) (h : EqualFold "0".toList buf1 = true) :
    buf1 = "0".toList := by
  unfold EqualFold at h
  have h2 : buf1.map foldChar = ['0'] := by
    have := beq_iff_eq.1 h
    rw [← this]
    decide
  cases buf1 with
  | nil => simp at h2
  | cons c cs =>
    cases cs with
    | nil =>
      simp only [List.map, List.cons.injEq, and_true] at h2
      rw [foldChar_eq_zero c h2]
      rfl
    | cons d ds => simp at h2

theorem positive_test (buf1 : GoString) (h1 : buf1 ≠ []) (h2 : buf1 ≠ "0".toList) :
    (decide (buf1.length = 0) || EqualFold "0".toList buf1) = false := by
  rw [Bool.or_eq_false_iff]
  constructor
  · simpa using h1
  · cases he : EqualFold "0".toList buf1 with
    | false => rfl
    | true => exact absurd (EqualFold_zero buf1 he) h2

theorem split_record (pId pUrl pLinks : GoString)
    (hid : tab ∉ pId) (hurl : tab ∉ pUrl) (hlinks : tab ∉ pLinks) :
    Split tab (pId ++ [tab] ++ pUrl ++ [tab] ++ pLinks) = [pId, pUrl, pLinks] := by
  have e : pId ++ [tab] ++ pUrl ++ [tab] ++ pLinks = pId ++ tab :: (pUrl ++ tab :: pLinks) := by
    simp [List.append_assoc]
  rw [e, Split_append_sep tab pId _ hid, Split_append_sep tab pUrl _ hurl,
    Split_eq_self_of_not_mem tab pLinks hlinks]

theorem emitRecord_ok (info : ProductInfo) (pLinks : GoString)
    (hl : getVideoLinks info.buf = .ok pLinks) :
    emitRecord info =
      Exec.act (.writeToFile (info.pId ++ [tab] ++ info.pUrl ++ [tab] ++ pLinks)) Exec.ret := by
  simp only [emitRecord, hl, mkRecord]

theorem DoCDPHeadless_positive (r : Renderer) (url buf1 : GoString) (info : ProductInfo)
    (hnew : r.new = none) (hrun : r.runIsPresent url = .ok buf1)
    (hne : buf1 ≠ []) (hnz : buf1 ≠ "0".toList)
    (hinfo : r.runGetProductInfo url = .ok info) (hs : r.shutdown = none) :
    DoCDPHeadless r url =
      Exec.act .cdpNew (Exec.act (.runIsPresent url) (Exec.act (.runGetProductInfo url)
        (Exec.act .shutdown (emitRecord info)))) := by
  have ht := positive_test buf1 hne hnz
  simp only [DoCDPHeadless, hnew, hrun, hinfo, hs, check, ht]
  rfl

theorem DoCDP_positive (r : Renderer) (url buf1 : GoString) (info : ProductInfo)
    (hnew : r.new = none) (hrun : r.runIsPresent url = .ok buf1)
    (hne : buf1 ≠ []) (hnz : buf1 ≠ "0".toList)
    (hinfo : r.runGetProductInfo url = .ok info) (hs : r.shutdown = none)
    (hw : r.wait = none) :
    DoCDP r url =
      Exec.act .cdpNew (Exec.act (.runIsPresent url) (Exec.act (.runGetProductInfo url)
        (Exec.act .shutdown (Exec.act .wait (emitRecord info))))) := by
  have ht := positive_test buf1 hne hnz
  simp only [DoCDP, hnew, hrun, hinfo, hs, hw, check, ht]
  rfl

/-- C9, as stated, fails on the code: `getProductInfo` reads the product id from the
page and nothing escapes it, so with the id `a<TAB>b` the one line `DoCDPHeadless`
(and `DoCDP`) hands to `WriteToFile` splits on the tab character into four fields,
not into `[pId, pUrl, pLinks]`. -/
theorem record_roundtrip_counterexample :
    (DoCDPHeadless ⟨none, fun _ => .ok "<div>".toList, none, none,
        fun _ => .ok ⟨thumbPrefix ++ "k1/a.jpg".toList, "a".toList ++ [tab] ++ "b".toList,
          "/p".toList⟩⟩ "/p".toList).written.map (Split tab) =
      [["a".toList, "b".toList, "/p".toList, "https://www.youtube.com/watch?v=k1".toList]] ∧
    getVideoLinks (thumbPrefix ++ "k1/a.jpg".toList) =
      .ok "https://www.youtube.com/watch?v=k1".toList ∧
    (DoCDPHeadless ⟨none, fun _ => .ok "<div>".toList, none, none,
        fun _ => .ok ⟨thumbPrefix ++ "k1/a.jpg".toList, "a".toList ++ [tab] ++ "b".toList,
          "/p".toList⟩⟩ "/p".toList).written.map (Split tab) ≠
      [["a".toList ++ [tab] ++ "b".toList, "/p".toList,
        "https://www.youtube.com/watch?v=k1".toList]] ∧
    (DoCDP ⟨none, fun _ => .ok "<div>".toList, none, none,
        fun _ => .ok ⟨thumbPrefix ++ "k1/a.jpg".toList, "a".toList ++ [tab] ++ "b".toList,
          "/p".toList⟩⟩ "/p".toList).written.map (Split tab) ≠
      [["a".toList ++ [tab] ++ "b".toList, "/p".toList,
        "https://www.youtube.com/watch?v=k1".toList]] := by
  decide

/-- C9, amended.  Whenever `DoCDPHeadless` or `DoCDP` produces a Product Record (the
session is created, the presence check returns a capture that is neither empty nor
`"0"`, `getProductInfo` returns `pId`, `pUrl` and `buf`, the teardown returns without
fault and `getVideoLinks(buf)` returns `pLinks`), the one line it hands to
`WriteToFile` is `pId + TAB + pUrl + TAB + pLinks`; and when `pId` and `pUrl` hold no
tab character, that line split on the tab character is exactly
`[pId, pUrl, pLinks]`. -/
theorem record_roundtrip (r : Renderer) (url buf1 : GoString) (info : ProductInfo)
    (pLinks : GoString) (hnew : r.new = none) (hrun : r.runIsPresent url = .ok buf1)
    (hne : buf1 ≠ []) (hnz : buf1 ≠ "0".toList)
    (hinfo : r.runGetProductInfo url = .ok info) (hs : r.shutdown = none)
    (hl : getVideoLinks info.buf = .ok pLinks) :
    (DoCDPHeadless r url).written = [info.pId ++ [tab] ++ info.pUrl ++ [tab] ++ pLinks] ∧
    (r.wait = none →
      (DoCDP r url).written = [info.pId ++ [tab] ++ info.pUrl ++ [tab] ++ pLinks]) ∧
    (tab ∉ info.pId → tab ∉ info.pUrl →
      Split tab (info.pId ++ [tab] ++ info.pUrl ++ [tab] ++ pLinks) =
        [info.pId, info.pUrl, pLinks]) := by
  refine ⟨?_, fun hw => ?_, fun hid hurl => ?_⟩
  · rw [DoCDPHeadless_positive r url buf1 info hnew hrun hne hnz hinfo hs,
      emitRecord_ok info pLinks hl]
    rfl
  · rw [DoCDP_positive r url buf1 info hnew hrun hne hnz hinfo hs hw,
      emitRecord_ok info pLinks hl]
    rfl
  · exact split_record _ _ _ hid hurl (getVideoLinks_no_tab info.buf pLinks hl)

/-- A page with product id `12345` and two thumbnails: both functions write one line,
and the line splits back into the three fields. -/
theorem record_roundtrip_witness :
    (DoCDPHeadless ⟨none, fun _ => .ok "<div>".toList, none, none,
        fun _ => .ok ⟨thumbPrefix ++ "k1/a.jpg ".toList ++ thumbPrefix ++ "k2/b.jpg".toList,
          "12345".toList, "https://www.tokopedia.com/shop/item".toList⟩⟩
        "/p".toList).written.map (Split tab) =
      [["12345".toList, "https://www.tokopedia.com/shop/item".toList,
        "https://www.youtube.com/watch?v=k1,".toList ++
          "https://www.youtube.com/watch?v=k2".toList]] ∧
    (DoCDP ⟨none, fun _ => .ok "<div>".toList, none, none,
        fun _ => .ok ⟨thumbPrefix ++ "k1/a.jpg ".toList ++ thumbPrefix ++ "k2/b.jpg".toList,
          "12345".toList, "https://www.tokopedia.com/shop/item".toList⟩⟩
        "/p".toList).written.map (Split tab) =
      [["12345".toList, "https://www.tokopedia.com/shop/item".toList,
        "https://www.youtube.com/watch?v=k1,".toList ++
          "https://www.youtube.com/watch?v=k2".toList]] :=
  have h := record_roundtrip ⟨none, fun _ => .ok "<div>".toList, none, none,
      fun _ => .ok ⟨thumbPrefix ++ "k1/a.jpg ".toList ++ thumbPrefix ++ "k2/b.jpg".toList,
        "12345".toList, "https://www.tokopedia.com/shop/item".toList⟩⟩
    "/p".toList "<div>".toList
    ⟨thumbPrefix ++ "k1/a.jpg ".toList ++ thumbPrefix ++ "k2/b.jpg".toList,
      "12345".toList, "https://www.tokopedia.com/shop/item".toList⟩
    ("https://www.youtube.com/watch?v=k1,".toList ++
      "https://www.youtube.com/watch?v=k2".toList)
    rfl rfl (by decide) (by decide) rfl rfl (by decide)
  ⟨by rw [h.1, List.map, List.map, h.2.2 (by decide) (by decide)],
   by rw [h.2.1 rfl, List.map, List.map, h.2.2 (by decide) (by decide)]⟩

end Crawler
